import Mathlib

/-!
Verification of the YouTube video summarizer extension against its design
specification.  The definitions below are shallow embeddings of the
TypeScript sources:

* `CacheService` (result cache over `chrome.storage.local`) — the persisted
  store is modelled as an association list from string keys to cache
  entries; `storeLookup`, `storeSet`, `storeRemove` model
  `chrome.storage.local.get/set/remove` on a single key.
* `GeminiService.summarizeChunkWithRetry` and `splitIntoChunks` — the retry
  loop is modelled with the per-attempt HTTP response supplied by an oracle
  `responses : Nat → ApiResp`; chunking is modelled over `List Char`
  (JavaScript `String.prototype.split(' ')` keeps empty pieces, which
  `splitChar` reproduces).
* `BackgroundService.handleSummarizeVideo` — modelled twice: a per-request
  functional view (`handleSummarizeVideo`, recording add/remove/api-call
  events), and a two-request interleaving view (`sysRun`) whose atomic
  blocks are exactly the code regions between `await` suspension points.
* `BackgroundService.exportAsMarkdown` — the markdown template, with the
  impure `new Date(...).toLocaleString()` passed in as a string argument.

Machine integers do not occur (all counts are small naturals); all
definitions are executable.
-/

/-- `Summary` record from `src/types` (id, videoId, content, keyPoints,
topics, timestamp in epoch-ms, language). -/
structure Summary where
  id : String
  videoId : String
  content : String
  keyPoints : List String
  topics : List String
  timestamp : Nat
  language : String
deriving DecidableEq, Repr

/-- `CacheEntry` as written by `CacheService.setSummary`: the payload plus an
absolute expiry time in epoch-ms. -/
structure CacheEntry where
  data : Summary
  expiresAt : Nat
deriving DecidableEq, Repr

/-- The persisted key-value store (`chrome.storage.local`), as an
association list. -/
abbrev Store : Type := List (String × CacheEntry)

/-- `chrome.storage.local.get(key)` on one key: first binding wins. -/
def storeLookup (key : String) (store : Store) : Option CacheEntry :=
  (store.find? (fun p => p.1 == key)).map (fun p => p.2)

/-- `chrome.storage.local.remove(key)`: drops every binding of `key`. -/
def storeRemove (key : String) (store : Store) : Store :=
  store.filter (fun p => p.1 != key)

/-- `chrome.storage.local.set(\x7bkey: entry\x7d)`: overwrites the binding. -/
def storeSet (key : String) (entry : CacheEntry) (store : Store) : Store :=
  (key, entry) :: storeRemove key store

/-- JavaScript `key.startsWith(pre)`. -/
def strStartsWith (s pre : String) : Bool :=
  pre.data.isPrefixOf s.data

/-- `CacheService.CACHE_DURATION` = 7 days in ms. -/
def CACHE_DURATION : Nat := 7 * 24 * 60 * 60 * 1000

/-- `CacheService.getSummary`: read key `"yt_summary_" + videoId`; a missing
entry is a miss; an entry with `expiresAt < now` is removed and reported as
a miss; otherwise the stored summary is returned.  Returns the result
together with the store after the side effects. -/
def getSummary (store : Store) (videoId : String) (now : Nat) :
    Option Summary × Store :=
  let key := "yt_summary_" ++ videoId
  match storeLookup key store with
  | none => (none, store)
  | some entry =>
    if entry.expiresAt < now then (none, storeRemove key store)
    else (some entry.data, store)

/-- `CacheService.setSummary`: writes `\x7bdata, expiresAt: now + CACHE_DURATION\x7d`
under key `"yt_summary_" + videoId`. -/
def setSummary (store : Store) (videoId : String) (summary : Summary)
    (now : Nat) : Store :=
  storeSet ("yt_summary_" ++ videoId) ⟨summary, now + CACHE_DURATION⟩ store

/-- `CacheService.removeSummary`: removes key `"summary_" + videoId`
(note: the `SUMMARY_PREFIX` namespace, not the `CACHE_PREFIX` one used by
`getSummary`/`setSummary`). -/
def removeSummary (store : Store) (videoId : String) : Store :=
  storeRemove ("summary_" ++ videoId) store

/-- Insertion sort by descending `timestamp`, modelling
`summaries.sort((a, b) => b.timestamp - a.timestamp)`. -/
def insertByTimestamp (s : Summary) : List Summary → List Summary
  | [] => [s]
  | x :: xs =>
    if x.timestamp ≤ s.timestamp then s :: x :: xs
    else x :: insertByTimestamp s xs

/-- See `insertByTimestamp`. -/
def sortByTimestampDesc : List Summary → List Summary
  | [] => []
  | x :: xs => insertByTimestamp x (sortByTimestampDesc xs)

/-- `CacheService.getAllSummaries`: scans every persisted entry; entries
under keys starting with `"summary_"` are collected when unexpired
(`expiresAt > now`) and removed when expired; the hits are sorted by
descending timestamp.  Returns the hits and the store after the removals. -/
def getAllSummaries (store : Store) (now : Nat) : List Summary × Store :=
  let hits := (store.filter
      (fun p => strStartsWith p.1 "summary_" && decide (now < p.2.expiresAt))).map
      (fun p => p.2.data)
  let store' := store.filter
      (fun p => !(strStartsWith p.1 "summary_" && decide (p.2.expiresAt ≤ now)))
  (sortByTimestampDesc hits, store')

/-- `CacheService.cleanup`: removes exactly the entries whose key starts
with `"yt_summary_"` and whose `expiresAt` is strictly in the past. -/
def cleanup (store : Store) (now : Nat) : Store :=
  store.filter
    (fun p => !(strStartsWith p.1 "yt_summary_" && decide (p.2.expiresAt < now)))

/-- A concrete summary for counterexamples and witnesses. -/
def exSum : Summary :=
  ⟨"vid1_0", "vid1", "some content", ["k1", "k2"], ["t1", "t2"], 0, "en"⟩

-- Helper lemmas about the store operations.

theorem storeLookup_storeSet_self (key : String) (e : CacheEntry) (store : Store) :
    storeLookup key (storeSet key e store) = some e := by
  simp [storeLookup, storeSet, List.find?]

theorem find?_filter_of_imp {α : Type} (l : List α) (p q : α → Bool)
    (h : ∀ a, p a = true → q a = true) :
    (l.filter q).find? p = l.find? p := by
  induction l with
  | nil => rfl
  | cons a l ih =>
    by_cases hq : q a = true
    · rw [List.filter_cons_of_pos hq]
      by_cases hp : p a = true
      · rw [List.find?_cons_of_pos _ hp, List.find?_cons_of_pos _ hp]
      · rw [List.find?_cons_of_neg _ (by simpa using hp),
          List.find?_cons_of_neg _ (by simpa using hp), ih]
    · have hp : ¬ p a = true := fun hpa => hq (h a hpa)
      rw [List.filter_cons_of_neg (by simpa using hq),
        List.find?_cons_of_neg _ (by simpa using hp), ih]

theorem storeLookup_storeRemove_self (key : String) (store : Store) :
    storeLookup key (storeRemove key store) = none := by
  have : (storeRemove key store).find? (fun p => p.1 == key) = none := by
    rw [List.find?_eq_none]
    intro p hp
    have := (List.mem_filter.mp hp).2
    simp at this
    simp [this]
  simp [storeLookup, this]

theorem storeLookup_storeRemove_of_ne (key k : String) (store : Store)
    (hne : k ≠ key) :
    storeLookup k (storeRemove key store) = storeLookup k store := by
  unfold storeLookup storeRemove
  rw [find?_filter_of_imp]
  intro a ha
  simp at ha ⊢
  rw [ha]
  exact hne

/-- C7 counterexample input: at `t = t0 + CACHE_DURATION` exactly, the
strict comparison `entry.expiresAt < Date.now()` is false. -/
theorem getSummary_at_expiry_boundary :
    ¬ ((getSummary (setSummary [] "vid1" exSum 0) "vid1" (0 + CACHE_DURATION)).1
        = none) := by
  decide

/-- C7 (amended): after `set(videoId, summary)` at `t0`, a `get` at any time
`t ≤ t0 + CACHE_DURATION` (strictly before or exactly at expiry) returns the
stored summary and leaves the store unchanged, while a `get` at any
`t > t0 + CACHE_DURATION` returns `null` and deletes the entry. -/
theorem getSummary_setSummary_ttl (store : Store) (v : String) (sm : Summary)
    (t0 t : Nat) :
    (t ≤ t0 + CACHE_DURATION →
      getSummary (setSummary store v sm t0) v t =
        (some sm, setSummary store v sm t0)) ∧
    (t0 + CACHE_DURATION < t →
      (getSummary (setSummary store v sm t0) v t).1 = none ∧
      storeLookup ("yt_summary_" ++ v)
        (getSummary (setSummary store v sm t0) v t).2 = none) := by
  constructor
  · intro h
    have hlk : storeLookup ("yt_summary_" ++ v) (setSummary store v sm t0) =
        some ⟨sm, t0 + CACHE_DURATION⟩ := storeLookup_storeSet_self _ _ _
    have hexp : ¬ (t0 + CACHE_DURATION < t) := not_lt.mpr h
    simp [getSummary, hlk, hexp]
  · intro h
    have hlk : storeLookup ("yt_summary_" ++ v) (setSummary store v sm t0) =
        some ⟨sm, t0 + CACHE_DURATION⟩ := storeLookup_storeSet_self _ _ _
    refine ⟨by simp [getSummary, hlk, h], ?_⟩
    simp only [getSummary, hlk]
    simp [h, storeLookup_storeRemove_self]

/-- Witness for `getSummary_setSummary_ttl` at concrete inputs. -/
theorem getSummary_setSummary_ttl_witness :
    (getSummary (setSummary [] "vid1" exSum 0) "vid1" 5 =
      (some exSum, setSummary [] "vid1" exSum 0)) ∧
    ((getSummary (setSummary [] "vid1" exSum 0) "vid1"
        (CACHE_DURATION + 1)).1 = none) :=
  ⟨(getSummary_setSummary_ttl [] "vid1" exSum 0 5).1 (by decide),
   ((getSummary_setSummary_ttl [] "vid1" exSum 0 (CACHE_DURATION + 1)).2
      (by decide)).1⟩

theorem strDataAppend (s t : String) : (s ++ t).data = s.data ++ t.data := rfl

theorem str_ne_of_head (s t : String) (a b : Char)
    (hs : s.data.head? = some a) (ht : t.data.head? = some b) (hab : a ≠ b) :
    s ≠ t := by
  intro h
  rw [h, ht] at hs
  exact hab (Option.some.inj hs).symm

/-- C8 counterexample: an entry under key `"summary_a"` (outside the
`"yt_summary_"` namespace that `cleanup` filters on) whose expiry has long
passed survives the sweep, refuting the claim that the sweep removes every
expired entry across the whole persisted store. -/
theorem cleanup_misses_foreign_namespace :
    ¬ (∀ p ∈ cleanup [("summary_a", ⟨exSum, 0⟩)] 5, ¬ p.2.expiresAt < 5) := by
  decide

/-- C8 (amended): `cleanup` removes exactly the entries whose key lies in
its own `"yt_summary_"` namespace and whose `expiresAt` is strictly past;
every other entry — expired or not — is kept. -/
theorem cleanup_mem_iff (store : Store) (now : Nat) (p : String × CacheEntry) :
    p ∈ cleanup store now ↔
      p ∈ store ∧ ¬ ("yt_summary_".data <+: p.1.data ∧ p.2.expiresAt < now) := by
  unfold cleanup
  rw [List.mem_filter]
  constructor
  · rintro ⟨hmem, hcond⟩
    refine ⟨hmem, ?_⟩
    rintro ⟨hpre, hexp⟩
    rw [Bool.not_eq_true', Bool.and_eq_false_iff] at hcond
    rcases hcond with hcond | hcond
    · rw [strStartsWith, ← Bool.not_eq_true, List.isPrefixOf_iff_prefix] at hcond
      exact hcond hpre
    · simp at hcond
      omega
  · rintro ⟨hmem, hcond⟩
    refine ⟨hmem, ?_⟩
    rw [Bool.not_eq_true', Bool.and_eq_false_iff]
    by_cases hpre : "yt_summary_".data <+: p.1.data
    · right
      simp only [decide_eq_false_iff_not, not_lt]
      by_contra hexp
      exact hcond ⟨hpre, by omega⟩
    · left
      rw [strStartsWith, Bool.eq_false_iff, ne_eq, List.isPrefixOf_iff_prefix]
      exact hpre

/-- C10: the write path (`setSummary`, key namespace `"yt_summary_"`) and
the `removeSummary`/`getAllSummaries` pair (key namespace `"summary_"`)
never interact: `removeSummary` leaves any summary written by `setSummary`
untouched, and `getAllSummaries` never reports one. -/
theorem setSummary_invisible_to_summary_namespace (store : Store)
    (v w : String) (sm : Summary) (t0 now : Nat) :
    storeLookup ("yt_summary_" ++ v)
        (removeSummary (setSummary store v sm t0) w) =
      some ⟨sm, t0 + CACHE_DURATION⟩ ∧
    (getAllSummaries (setSummary store v sm t0) now).1 =
      (getAllSummaries store now).1 := by
  constructor
  · rw [removeSummary,
      storeLookup_storeRemove_of_ne _ _ _
        (str_ne_of_head ("yt_summary_" ++ v) ("summary_" ++ w) 'y' 's'
          rfl rfl (by decide)),
      setSummary, storeLookup_storeSet_self]
  · have hkey : strStartsWith ("yt_summary_" ++ v) "summary_" = false := rfl
    simp only [getAllSummaries, setSummary, storeSet, storeRemove,
      List.filter_cons, hkey, Bool.false_and, List.filter_filter]
    rw [if_neg (by simp)]
    congr 1
    congr 1
    apply List.filter_congr
    intro a _
    by_cases hpre : strStartsWith a.1 "summary_" = true
    · by_cases hexp : now < a.2.expiresAt
      · have hne : (a.1 != ("yt_summary_" ++ v)) = true := by
          simp only [bne_iff_ne, ne_eq]
          intro h
          rw [h, hkey] at hpre
          exact Bool.false_ne_true hpre
        simp [hpre, hexp, hne]
      · simp [hpre, hexp]
    · simp only [Bool.not_eq_true] at hpre
      simp [hpre]


/-! ### Coordinator: `BackgroundService.handleSummarizeVideo`

Per-request functional view.  One call, with its environment (stored API
key present?, cache hit?, outcome of `gemini.summarize`, whether the cache
write throws) supplied as parameters; the call returns its response, the
final `processingVideos` set, and the ordered trace of set mutations and
API-sequence starts. -/

/-- Outcome of the awaited `gemini.summarize` call: a `\x7bsuccess:true\x7d`
result, a `\x7bsuccess:false, error\x7d` result, or a thrown exception. -/
inductive GemOutcome where
  | ok (s : Summary)
  | fail (e : String)
  | thrown (e : String)
deriving DecidableEq

/-- Observable events of one `handleSummarizeVideo` call. -/
inductive Ev where
  | add
  | remove
  | apiCall
deriving DecidableEq

/-- Response shape `\x7bsuccess, data?, error?\x7d`. -/
inductive APIResp where
  | ok (s : Summary)
  | err (e : String)
deriving DecidableEq

/-- `handleSummarizeVideo(videoId, ...)`: missing API key throws (caught by
the outer catch); a videoId already in `processingVideos` fails fast; a
cache hit returns the cached summary; otherwise the videoId is added to
`processingVideos`, `gemini.summarize` is awaited inside a `try` whose
`finally` always deletes the videoId, and the outer catch converts any
exception into a `\x7bsuccess:false\x7d` response. -/
def handleSummarizeVideo (hasKey : Bool) (cached : Option Summary)
    (gem : GemOutcome) (setThrows : Bool) (processingVideos : List String)
    (videoId : String) : APIResp × List String × List Ev :=
  if hasKey = false then
    (APIResp.err "Please set your Gemini API key in the extension settings",
      processingVideos, [])
  else if videoId ∈ processingVideos then
    (APIResp.err "Video is already being processed", processingVideos, [])
  else
    match cached with
    | some s => (APIResp.ok s, processingVideos, [])
    | none =>
      let processing1 := videoId :: processingVideos
      match gem with
      | GemOutcome.ok s =>
        if setThrows then
          (APIResp.err "Cache write failed", processing1.erase videoId,
            [Ev.add, Ev.apiCall, Ev.remove])
        else
          (APIResp.ok s, processing1.erase videoId,
            [Ev.add, Ev.apiCall, Ev.remove])
      | GemOutcome.fail e =>
        (APIResp.err e, processing1.erase videoId,
          [Ev.add, Ev.apiCall, Ev.remove])
      | GemOutcome.thrown e =>
        (APIResp.err e, processing1.erase videoId,
          [Ev.add, Ev.apiCall, Ev.remove])

/-- C2: on every exit path of `handleSummarizeVideo` — success, summarizer
failure, or an exception thrown after the add — the `processingVideos` set
is restored to its initial value, the videoId is added at most once, and
whenever it is added it is removed exactly once afterwards (the event
trace is exactly add, api-call, remove). -/
theorem handleSummarizeVideo_balanced (hasKey : Bool) (cached : Option Summary)
    (gem : GemOutcome) (setThrows : Bool) (processingVideos : List String)
    (videoId : String) :
    (handleSummarizeVideo hasKey cached gem setThrows processingVideos
        videoId).2.1 = processingVideos ∧
    (handleSummarizeVideo hasKey cached gem setThrows processingVideos
        videoId).2.2.count Ev.add ≤ 1 ∧
    (handleSummarizeVideo hasKey cached gem setThrows processingVideos
        videoId).2.2.count Ev.add =
      (handleSummarizeVideo hasKey cached gem setThrows processingVideos
        videoId).2.2.count Ev.remove ∧
    (Ev.add ∈ (handleSummarizeVideo hasKey cached gem setThrows
        processingVideos videoId).2.2 →
      (handleSummarizeVideo hasKey cached gem setThrows processingVideos
        videoId).2.2 = [Ev.add, Ev.apiCall, Ev.remove]) := by
  unfold handleSummarizeVideo
  by_cases hk : hasKey = false
  · simp [hk]
  · by_cases hmem : videoId ∈ processingVideos
    · simp [hk, hmem]
    · cases cached with
      | some s => simp [hk, hmem]
      | none =>
        cases gem with
        | ok s =>
          by_cases hset : setThrows <;>
            simp [hk, hmem, hset, List.erase_cons_head, List.count_cons]
        | fail e =>
          simp [hk, hmem, List.erase_cons_head, List.count_cons]
        | thrown e =>
          simp [hk, hmem, List.erase_cons_head, List.count_cons]

/-! ### Coordinator: two interleaved `handleSummarizeVideo` calls

The atomic blocks are the synchronous code regions between `await`
suspension points of the source:

* `start`      — after `chrome.storage.sync.get` resolves: key check and
                 `processingVideos.has(videoId)` check, then the cache read
                 is initiated;
* `afterCheck` — after `cache.getSummary` resolves: cache-hit check, then
                 `processingVideos.add(videoId)` and the live API sequence
                 (`gemini.summarize`) is started;
* `summarizing`— after `gemini.summarize` resolves: on success the cache
                 write is started, on failure the `finally` delete runs and
                 the call returns;
* `caching`    — after `cache.setSummary` resolves: `finally` delete, return.

Both requests target the same `videoId`; the environment (key present,
cache hit, summarizer success) is shared. -/

inductive PC where
  | start
  | afterCheck
  | summarizing
  | caching
  | done
deriving DecidableEq

inductive ReqResult where
  | success
  | cachedHit
  | alreadyProcessing
  | gemError
  | noApiKey
deriving DecidableEq

structure Req where
  pc : PC
  calls : Nat
  res : Option ReqResult
deriving DecidableEq

structure Cfg where
  hasKey : Bool
  cacheHit : Bool
  gemSuccess : Bool
deriving DecidableEq

structure SysState where
  processing : List String
  r1 : Req
  r2 : Req
deriving DecidableEq

/-- `processingVideos.add(videoId)` (set semantics). -/
def setAdd (v : String) (P : List String) : List String :=
  if v ∈ P then P else v :: P

/-- One atomic block of one request, at its current suspension point. -/
def stepReq (cfg : Cfg) (v : String) (P : List String) (r : Req) :
    List String × Req :=
  match r.pc with
  | PC.start =>
    if cfg.hasKey = false then
      (P, { r with pc := PC.done, res := some ReqResult.noApiKey })
    else if v ∈ P then
      (P, { r with pc := PC.done, res := some ReqResult.alreadyProcessing })
    else (P, { r with pc := PC.afterCheck })
  | PC.afterCheck =>
    if cfg.cacheHit then
      (P, { r with pc := PC.done, res := some ReqResult.cachedHit })
    else (setAdd v P, { r with pc := PC.summarizing, calls := r.calls + 1 })
  | PC.summarizing =>
    if cfg.gemSuccess then (P, { r with pc := PC.caching })
    else (P.erase v, { r with pc := PC.done, res := some ReqResult.gemError })
  | PC.caching =>
    (P.erase v, { r with pc := PC.done, res := some ReqResult.success })
  | PC.done => (P, r)

/-- Scheduler step: `true` runs request 1's next block, `false` request 2's. -/
def sysStep (cfg : Cfg) (v : String) (st : SysState) (who : Bool) : SysState :=
  if who then
    let pr := stepReq cfg v st.processing st.r1
    ⟨pr.1, pr.2, st.r2⟩
  else
    let pr := stepReq cfg v st.processing st.r2
    ⟨pr.1, st.r1, pr.2⟩

/-- Run a schedule (a list of scheduler choices) from a state. -/
def sysRun (cfg : Cfg) (v : String) (st : SysState) (sched : List Bool) :
    SysState :=
  sched.foldl (sysStep cfg v) st

/-- Both requests pending, empty processing set. -/
def sysInit : SysState :=
  ⟨[], ⟨PC.start, 0, none⟩, ⟨PC.start, 0, none⟩⟩

/-- C1 counterexample: with the stored key present, a cache miss and a
successful summarizer, the schedule that runs each request's membership
check before either performs its add (both checks fall in the window while
the other call is suspended on the cache read) lets both calls through:
the second request — issued while the first had begun and not resolved —
ends in success, not in the "already processing" error, and each of the
two calls starts its own live API sequence. -/
theorem summarizeVideo_race :
    (sysRun ⟨true, false, true⟩ "v" sysInit
        [true, false, true, false, true, false, true, false]).r2.res =
      some ReqResult.success ∧
    (sysRun ⟨true, false, true⟩ "v" sysInit
        [true, false, true, false, true, false, true, false]).r1.calls = 1 ∧
    (sysRun ⟨true, false, true⟩ "v" sysInit
        [true, false, true, false, true, false, true, false]).r2.calls = 1 := by
  decide

theorem stepReq_pc_ne_start (cfg : Cfg) (v : String) (P : List String)
    (r : Req) : (stepReq cfg v P r).2.pc ≠ PC.start := by
  unfold stepReq
  cases h : r.pc with
  | start =>
    by_cases h1 : cfg.hasKey = false
    · simp [h1]
    · by_cases h2 : v ∈ P
      · simp [h1, h2]
      · simp [h1, h2]
  | afterCheck => by_cases h1 : cfg.cacheHit = true <;> simp [h1]
  | summarizing => by_cases h1 : cfg.gemSuccess = true <;> simp [h1]
  | caching => simp
  | done => simp [h]

theorem sysRun_calls_zero (cfg : Cfg) (v : String) (s : List Bool)
    (st : SysState) (h0 : st.r2.pc = PC.start → st.r2.calls = 0) :
    (sysRun cfg v st s).r2.pc = PC.start → (sysRun cfg v st s).r2.calls = 0 := by
  induction s generalizing st with
  | nil => exact h0
  | cons a s ih =>
    show (sysRun cfg v (sysStep cfg v st a) s).r2.pc = PC.start →
      (sysRun cfg v (sysStep cfg v st a) s).r2.calls = 0
    apply ih
    cases a with
    | true => exact h0
    | false =>
      intro hpc
      exact absurd (by simpa [sysStep] using hpc)
        (stepReq_pc_ne_start cfg v st.processing st.r2)

theorem sysRun_r2_frozen (cfg : Cfg) (v : String) (t : List Bool)
    (st : SysState) (h : st.r2.pc = PC.done) :
    (sysRun cfg v st t).r2 = st.r2 := by
  induction t generalizing st with
  | nil => rfl
  | cons a t ih =>
    show (sysRun cfg v (sysStep cfg v st a) t).r2 = st.r2
    cases a with
    | true => rw [ih _ (by simpa [sysStep] using h)]; simp [sysStep]
    | false =>
      have hr2 : (sysStep cfg v st false).r2 = st.r2 := by
        simp [sysStep, stepReq, h]
      rw [ih _ (by rw [hr2]; exact h), hr2]

/-- C1 (amended): the mutual-exclusion gate holds exactly when the second
request's membership check (its `start` block) executes while the videoId
is a member of `processingVideos` — i.e. after the first request's add and
before its `finally` delete.  In that case, under any continuation of the
schedule, the second request ends with the "already processing" failure and
never starts a live API sequence.  (The counterexample
`summarizeVideo_race` shows the gate does not cover the window before the
first request's add, while it is suspended on the cache read.) -/
theorem summarizeVideo_gate (cfg : Cfg) (v : String) (s t : List Bool)
    (hkey : cfg.hasKey = true)
    (hpc : (sysRun cfg v sysInit s).r2.pc = PC.start)
    (hmem : v ∈ (sysRun cfg v sysInit s).processing) :
    (sysRun cfg v sysInit (s ++ false :: t)).r2.res =
      some ReqResult.alreadyProcessing ∧
    (sysRun cfg v sysInit (s ++ false :: t)).r2.calls = 0 := by
  have hrun : sysRun cfg v sysInit (s ++ false :: t) =
      sysRun cfg v (sysStep cfg v (sysRun cfg v sysInit s) false) t := by
    rw [sysRun, List.foldl_append]
    rfl
  have hcalls : (sysRun cfg v sysInit s).r2.calls = 0 :=
    sysRun_calls_zero cfg v s sysInit (fun _ => rfl) hpc
  have hstep : (sysStep cfg v (sysRun cfg v sysInit s) false).r2.pc = PC.done ∧
      (sysStep cfg v (sysRun cfg v sysInit s) false).r2.res =
        some ReqResult.alreadyProcessing ∧
      (sysStep cfg v (sysRun cfg v sysInit s) false).r2.calls =
        (sysRun cfg v sysInit s).r2.calls := by
    refine ⟨?_, ?_, ?_⟩ <;> simp [sysStep, stepReq, hpc, hkey, hmem]
  have hfrozen := sysRun_r2_frozen cfg v t
    (sysStep cfg v (sysRun cfg v sysInit s) false) hstep.1
  rw [hrun, hfrozen]
  exact ⟨hstep.2.1, hstep.2.2.trans hcalls⟩

/-- Witness for `summarizeVideo_gate`: the first request runs its check and
its add (two blocks), then the second request's check fires into the
occupied window. -/
theorem summarizeVideo_gate_witness :
    (sysRun ⟨true, false, true⟩ "v" sysInit
        ([true, true] ++ false :: [true, true, true])).r2.res =
      some ReqResult.alreadyProcessing ∧
    (sysRun ⟨true, false, true⟩ "v" sysInit
        ([true, true] ++ false :: [true, true, true])).r2.calls = 0 :=
  summarizeVideo_gate ⟨true, false, true⟩ "v" [true, true] [true, true, true]
    rfl (by decide) (by decide)

/-! ### `GeminiService.summarizeChunkWithRetry`

The per-attempt HTTP result is supplied by an oracle `responses`; attempt
numbers count from 1 as in the source.  Every `throw` inside the `try`
body (the rate-limit throw on the last attempt, the generic non-2xx throw,
and the malformed-body throw) is caught by the function's own `catch`,
which retries while `attempt < MAX_RETRIES` and otherwise returns `null` —
so the function can never surface an exception, which `CallResult.thrown`
exists to represent. -/

/-- `GeminiService.MAX_RETRIES`. -/
def MAX_RETRIES : Nat := 3

/-- `GeminiService.INITIAL_RETRY_DELAY` (ms). -/
def INITIAL_RETRY_DELAY : Nat := 1000

/-- One HTTP response: a 2xx whose body either carries the
`candidates[0].content.parts[0].text` field (`some text`) or is malformed
(`none`), or a non-2xx with its status code and optional `error.message`. -/
inductive ApiResp where
  | ok (text : Option String)
  | err (status : Nat) (msg : Option String)
deriving DecidableEq

/-- What one call of `summarizeChunkWithRetry` produces. -/
inductive CallResult where
  | text (s : String)
  | nullResult
  | thrown (e : String)
deriving DecidableEq

/-- Result plus the observed backoff delays (ms, in order) and the number
of fetches performed. -/
structure RetryTrace where
  result : CallResult
  delays : List Nat
  attempts : Nat
deriving DecidableEq

/-- `GeminiService.summarizeChunkWithRetry`.  On a non-ok response: status
429 waits `INITIAL_RETRY_DELAY * 2 ^ (attempt - 1)` and recurses while
attempts remain, throwing after the last attempt (a throw the catch turns
into `null`); any other status throws the body's `error.message`, which the
catch also retries with the same backoff and finally turns into `null`.
On an ok response whose body lacks the expected text field, the
"Invalid response format from API" throw is likewise caught and retried. -/
def summarizeChunkWithRetry (responses : Nat → ApiResp) (attempt : Nat) :
    RetryTrace :=
  match responses attempt with
  | ApiResp.err status _msg =>
    if status = 429 then
      if h : attempt < MAX_RETRIES then
        let d := INITIAL_RETRY_DELAY * 2 ^ (attempt - 1)
        let r := summarizeChunkWithRetry responses (attempt + 1)
        ⟨r.result, d :: r.delays, r.attempts + 1⟩
      else ⟨CallResult.nullResult, [], 1⟩
    else
      if h : attempt < MAX_RETRIES then
        let d := INITIAL_RETRY_DELAY * 2 ^ (attempt - 1)
        let r := summarizeChunkWithRetry responses (attempt + 1)
        ⟨r.result, d :: r.delays, r.attempts + 1⟩
      else ⟨CallResult.nullResult, [], 1⟩
  | ApiResp.ok none =>
    if h : attempt < MAX_RETRIES then
      let d := INITIAL_RETRY_DELAY * 2 ^ (attempt - 1)
      let r := summarizeChunkWithRetry responses (attempt + 1)
      ⟨r.result, d :: r.delays, r.attempts + 1⟩
    else ⟨CallResult.nullResult, [], 1⟩
  | ApiResp.ok (some t) => ⟨CallResult.text t, [], 1⟩
termination_by MAX_RETRIES - attempt
decreasing_by
  all_goals
    simp only [MAX_RETRIES] at h ⊢
    omega

/-- C4 counterexample: a call whose 2xx responses are always malformed is
retried twice (3 fetches, backoff 1000 ms then 2000 ms) and ends as a
`null` soft failure — not the claimed immediate hard failure with no
retry. -/
theorem malformed_response_is_retried :
    (summarizeChunkWithRetry (fun _ => ApiResp.ok none) 1).attempts = 3 ∧
    1 < (summarizeChunkWithRetry (fun _ => ApiResp.ok none) 1).attempts ∧
    (summarizeChunkWithRetry (fun _ => ApiResp.ok none) 1).result =
      CallResult.nullResult ∧
    (summarizeChunkWithRetry (fun _ => ApiResp.ok none) 1).delays =
      [1000, 2000] := by
  rw [summarizeChunkWithRetry, summarizeChunkWithRetry,
    summarizeChunkWithRetry]
  norm_num [MAX_RETRIES, INITIAL_RETRY_DELAY]

/-- C4 (amended): a successful (2xx) response with a malformed body throws
"Invalid response format from API", but the throw is caught by the same
catch as every other failure: while attempts remain the call waits
`INITIAL_RETRY_DELAY * 2 ^ (attempt - 1)` and retries, and on the last
attempt it returns `null` (soft failure) — there is no immediate hard
failure path for malformed bodies. -/
theorem malformed_response_retry_shape (responses : Nat → ApiResp)
    (attempt : Nat) (hmal : responses attempt = ApiResp.ok none) :
    (attempt < MAX_RETRIES →
      summarizeChunkWithRetry responses attempt =
        ⟨(summarizeChunkWithRetry responses (attempt + 1)).result,
          INITIAL_RETRY_DELAY * 2 ^ (attempt - 1) ::
            (summarizeChunkWithRetry responses (attempt + 1)).delays,
          (summarizeChunkWithRetry responses (attempt + 1)).attempts + 1⟩) ∧
    (MAX_RETRIES ≤ attempt →
      summarizeChunkWithRetry responses attempt =
        ⟨CallResult.nullResult, [], 1⟩) := by
  constructor
  · intro hlt
    rw [summarizeChunkWithRetry, hmal]
    simp [hlt]
  · intro hge
    rw [summarizeChunkWithRetry, hmal]
    simp [Nat.not_lt.mpr hge]

/-- Witness for `malformed_response_retry_shape` at attempts 1 and 3. -/
theorem malformed_response_retry_shape_witness :
    (summarizeChunkWithRetry (fun _ => ApiResp.ok none) 1 =
      ⟨(summarizeChunkWithRetry (fun _ => ApiResp.ok none) 2).result,
        INITIAL_RETRY_DELAY * 2 ^ 0 ::
          (summarizeChunkWithRetry (fun _ => ApiResp.ok none) 2).delays,
        (summarizeChunkWithRetry (fun _ => ApiResp.ok none) 2).attempts + 1⟩) ∧
    (summarizeChunkWithRetry (fun _ => ApiResp.ok none) 3 =
      ⟨CallResult.nullResult, [], 1⟩) :=
  ⟨(malformed_response_retry_shape (fun _ => ApiResp.ok none) 1 rfl).1
      (by decide),
   (malformed_response_retry_shape (fun _ => ApiResp.ok none) 3 rfl).2
      (by decide)⟩

/-- C5 counterexample: a call answered 401 ("UNAUTHENTICATED") on every
attempt is retried twice like any generic failure and ends as `null`; the
auth error is neither exempt from retry nor surfaced to the caller. -/
theorem auth_error_is_retried :
    (summarizeChunkWithRetry
        (fun _ => ApiResp.err 401 (some "UNAUTHENTICATED")) 1).attempts = 3 ∧
    1 < (summarizeChunkWithRetry
        (fun _ => ApiResp.err 401 (some "UNAUTHENTICATED")) 1).attempts ∧
    (summarizeChunkWithRetry
        (fun _ => ApiResp.err 401 (some "UNAUTHENTICATED")) 1).result =
      CallResult.nullResult := by
  rw [summarizeChunkWithRetry, summarizeChunkWithRetry,
    summarizeChunkWithRetry]
  norm_num [MAX_RETRIES, INITIAL_RETRY_DELAY]

/-- C5 (amended): `summarizeChunkWithRetry` makes no distinction between
statuses beyond logging: for every constant failing status — 401, 403, 429,
500 or any other non-2xx — a call starting at attempt 1 performs exactly
`MAX_RETRIES` fetches with backoff delays 1000 ms and 2000 ms and returns
`null`.  (The status-specific messages of `getDetailedErrorMessage` are
used only on the `validateApiKey` path, not here.) -/
theorem constant_failure_uniform (status : Nat) (msg : Option String)
    (responses : Nat → ApiResp)
    (hresp : ∀ n, responses n = ApiResp.err status msg) :
    summarizeChunkWithRetry responses 1 =
      ⟨CallResult.nullResult,
        [INITIAL_RETRY_DELAY * 2 ^ 0, INITIAL_RETRY_DELAY * 2 ^ 1],
        MAX_RETRIES⟩ := by
  rw [summarizeChunkWithRetry, hresp 1, summarizeChunkWithRetry, hresp 2,
    summarizeChunkWithRetry, hresp 3]
  by_cases h429 : status = 429 <;>
    simp [h429, MAX_RETRIES, INITIAL_RETRY_DELAY]

/-- Witness for `constant_failure_uniform` at status 401. -/
theorem constant_failure_uniform_witness :
    summarizeChunkWithRetry (fun _ => ApiResp.err 401 none) 1 =
      ⟨CallResult.nullResult,
        [INITIAL_RETRY_DELAY * 2 ^ 0, INITIAL_RETRY_DELAY * 2 ^ 1],
        MAX_RETRIES⟩ :=
  constant_failure_uniform 401 none (fun _ => ApiResp.err 401 none)
    (fun _ => rfl)

/-- C6: a chunk call rate-limited (HTTP 429) on every attempt is retried
with the strictly increasing backoff delays `INITIAL_RETRY_DELAY * 2 ^ 0`
and `INITIAL_RETRY_DELAY * 2 ^ 1`, performs exactly `MAX_RETRIES` fetches,
and then yields `null` (`CallResult.nullResult`, a soft failure) to the
chunk-summarization caller, not a thrown error. -/
theorem rate_limited_backoff (responses : Nat → ApiResp)
    (hresp : ∀ n, ∃ m, responses n = ApiResp.err 429 m) :
    summarizeChunkWithRetry responses 1 =
      ⟨CallResult.nullResult,
        [INITIAL_RETRY_DELAY * 2 ^ 0, INITIAL_RETRY_DELAY * 2 ^ 1],
        MAX_RETRIES⟩ ∧
    List.Chain' (· < ·) (summarizeChunkWithRetry responses 1).delays := by
  obtain ⟨m1, h1⟩ := hresp 1
  obtain ⟨m2, h2⟩ := hresp 2
  obtain ⟨m3, h3⟩ := hresp 3
  have hmain : summarizeChunkWithRetry responses 1 =
      ⟨CallResult.nullResult,
        [INITIAL_RETRY_DELAY * 2 ^ 0, INITIAL_RETRY_DELAY * 2 ^ 1],
        MAX_RETRIES⟩ := by
    rw [summarizeChunkWithRetry, h1, summarizeChunkWithRetry, h2,
      summarizeChunkWithRetry, h3]
    simp [MAX_RETRIES, INITIAL_RETRY_DELAY]
  refine ⟨hmain, ?_⟩
  rw [hmain]
  simp [INITIAL_RETRY_DELAY]

/-- Witness for `rate_limited_backoff` with every response a bare 429. -/
theorem rate_limited_backoff_witness :
    summarizeChunkWithRetry (fun _ => ApiResp.err 429 none) 1 =
      ⟨CallResult.nullResult,
        [INITIAL_RETRY_DELAY * 2 ^ 0, INITIAL_RETRY_DELAY * 2 ^ 1],
        MAX_RETRIES⟩ :=
  (rate_limited_backoff (fun _ => ApiResp.err 429 none)
    (fun _ => ⟨none, rfl⟩)).1

/-! ### `GeminiService.splitIntoChunks`

Strings are handled at the `List Char` level.  `splitChar c` is JavaScript
`String.prototype.split(c)` for a one-character separator (empty pieces are
kept); `joinWithChar c` is `Array.prototype.join(c)`. -/

def splitChar (c : Char) : List Char → List (List Char)
  | [] => [[]]
  | a :: as =>
    if a = c then [] :: splitChar c as
    else (a :: (splitChar c as).headI) :: (splitChar c as).tail

def joinWithChar (c : Char) : List (List Char) → List Char
  | [] => []
  | [w] => w
  | w :: ws => w ++ c :: joinWithChar c ws

/-- The greedy packing loop of `splitIntoChunks`: a word is appended to the
current chunk unless `currentChunk.join(' ').length + word.length` would
exceed the limit, in which case the current chunk is flushed (even when it
is empty) and the word starts a new chunk; a non-empty final chunk is
flushed at the end. -/
def chunksLoop (maxChunkLength : Nat) :
    List (List Char) → List (List Char) → List (List Char) → List (List Char)
  | [], chunks, currentChunk =>
    if currentChunk.length > 0 then chunks ++ [joinWithChar ' ' currentChunk]
    else chunks
  | word :: words, chunks, currentChunk =>
    if (joinWithChar ' ' currentChunk).length + word.length > maxChunkLength then
      chunksLoop maxChunkLength words (chunks ++ [joinWithChar ' ' currentChunk])
        [word]
    else
      chunksLoop maxChunkLength words chunks (currentChunk ++ [word])

/-- `GeminiService.splitIntoChunks(text, maxChunkLength)`. -/
def splitIntoChunks (text : String) (maxChunkLength : Nat) : List String :=
  (chunksLoop maxChunkLength (splitChar ' ' text.data) [] []).map
    (fun l => String.mk l)

/-- `chunks.join(' ')` at the `String` level. -/
def joinWords (chunks : List String) : String :=
  String.mk (joinWithChar ' ' (chunks.map String.data))

theorem splitChar_ne_nil (c : Char) (l : List Char) : splitChar c l ≠ [] := by
  cases l with
  | nil => simp [splitChar]
  | cons a as =>
    rw [splitChar]
    by_cases hac : a = c <;> simp [hac]

theorem joinWithChar_cons (c : Char) (w : List Char) (ws : List (List Char))
    (h : ws ≠ []) :
    joinWithChar c (w :: ws) = w ++ c :: joinWithChar c ws := by
  cases ws with
  | nil => exact absurd rfl h
  | cons x xs => rfl

theorem joinWithChar_append (c : Char) (as bs : List (List Char))
    (ha : as ≠ []) (hb : bs ≠ []) :
    joinWithChar c (as ++ bs) =
      joinWithChar c as ++ c :: joinWithChar c bs := by
  induction as with
  | nil => exact absurd rfl ha
  | cons a as ih =>
    cases as with
    | nil => rw [List.singleton_append, joinWithChar_cons c a bs hb]; rfl
    | cons a2 as2 =>
      rw [List.cons_append, joinWithChar_cons c a ((a2 :: as2) ++ bs) (by simp),
        ih (by simp), joinWithChar_cons c a (a2 :: as2) (by simp)]
      simp

theorem splitChar_append_cons (c : Char) (xs ys : List Char) :
    splitChar c (xs ++ c :: ys) = splitChar c xs ++ splitChar c ys := by
  induction xs with
  | nil => simp [splitChar]
  | cons a xs ih =>
    rw [List.cons_append, splitChar, ih, splitChar]
    cases hsp : splitChar c xs with
    | nil => exact absurd hsp (splitChar_ne_nil c xs)
    | cons w ws => by_cases hac : a = c <;> simp [hac]

theorem splitChar_of_not_mem (c : Char) (l : List Char) (h : c ∉ l) :
    splitChar c l = [l] := by
  induction l with
  | nil => rfl
  | cons a as ih =>
    rw [splitChar, ih (fun hmem => h (List.mem_cons_of_mem a hmem))]
    have hac : ¬ a = c := fun hh => h (hh ▸ List.mem_cons_self a as)
    simp [hac]

theorem joinWithChar_splitChar (c : Char) (l : List Char) :
    joinWithChar c (splitChar c l) = l := by
  induction l with
  | nil => rfl
  | cons a as ih =>
    rw [splitChar]
    by_cases hac : a = c
    · rw [if_pos hac,
        joinWithChar_cons c [] (splitChar c as) (splitChar_ne_nil c as), ih,
        hac]
      rfl
    · rw [if_neg hac]
      cases hsp : splitChar c as with
      | nil => exact absurd hsp (splitChar_ne_nil c as)
      | cons w ws =>
        rw [hsp] at ih
        cases ws with
        | nil =>
          simp only [joinWithChar, List.headI, List.tail] at ih ⊢
          rw [ih]
        | cons w2 ws2 =>
          simp only [List.headI, List.tail]
          rw [joinWithChar_cons c (a :: w) (w2 :: ws2) (by simp)]
          rw [joinWithChar_cons c w (w2 :: ws2) (by simp)] at ih
          rw [List.cons_append, ih]

theorem splitChar_joinWithChar (c : Char) (segs : List (List Char))
    (h : ∀ s ∈ segs, c ∉ s) (hne : segs ≠ []) :
    splitChar c (joinWithChar c segs) = segs := by
  induction segs with
  | nil => exact absurd rfl hne
  | cons s segs ih =>
    cases segs with
    | nil =>
      show splitChar c (joinWithChar c [s]) = [s]
      exact splitChar_of_not_mem c s (h s (List.mem_cons_self s []))
    | cons s2 segs2 =>
      rw [joinWithChar_cons c s (s2 :: segs2) (by simp),
        splitChar_append_cons,
        splitChar_of_not_mem c s (h s (List.mem_cons_self s _)),
        ih (fun x hx => h x (List.mem_cons_of_mem s hx)) (by simp)]
      rfl

theorem splitChar_mem_not_mem (c : Char) (l : List Char) :
    ∀ w ∈ splitChar c l, c ∉ w := by
  induction l with
  | nil => intro w hw; simp [splitChar] at hw; simp [hw]
  | cons a as ih =>
    intro w hw
    rw [splitChar] at hw
    by_cases hac : a = c
    · rw [if_pos hac] at hw
      rcases List.mem_cons.mp hw with h1 | h1
      · simp [h1]
      · exact ih w h1
    · rw [if_neg hac] at hw
      rcases hsp : splitChar c as with _ | ⟨w0, ws⟩
      · exact absurd hsp (splitChar_ne_nil c as)
      · rw [hsp] at hw
        simp only [List.headI, List.tail] at hw
        rcases List.mem_cons.mp hw with h1 | h1
        · subst h1
          intro hmem
          rcases List.mem_cons.mp hmem with h2 | h2
          · exact hac h2.symm
          · exact ih w0 (hsp ▸ List.mem_cons_self w0 ws) h2
        · exact ih w (hsp ▸ List.mem_cons_of_mem w0 h1)

theorem chunksLoop_mono (L : Nat) (ws : List (List Char)) :
    ∀ (chunks cur : List (List Char)),
      chunksLoop L ws chunks cur = chunks ++ chunksLoop L ws [] cur := by
  induction ws with
  | nil =>
    intro chunks cur
    rw [chunksLoop, chunksLoop]
    by_cases h : cur.length > 0 <;> simp [h]
  | cons w ws ih =>
    intro chunks cur
    rw [chunksLoop, chunksLoop]
    by_cases h : (joinWithChar ' ' cur).length + w.length > L
    · rw [if_pos h, if_pos h, ih (chunks ++ [joinWithChar ' ' cur]),
        ih ([] ++ [joinWithChar ' ' cur])]
      simp
    · rw [if_neg h, if_neg h, ih chunks]

theorem chunksLoop_ne_nil (L : Nat) (ws : List (List Char)) :
    ∀ (chunks cur : List (List Char)), cur ≠ [] →
      chunksLoop L ws chunks cur ≠ [] := by
  induction ws with
  | nil =>
    intro chunks cur hcur
    rw [chunksLoop]
    rw [if_pos (by simpa [List.length_pos] using hcur)]
    simp
  | cons w ws ih =>
    intro chunks cur hcur
    rw [chunksLoop]
    by_cases h : (joinWithChar ' ' cur).length + w.length > L
    · rw [if_pos h]; exact ih _ [w] (by simp)
    · rw [if_neg h]; exact ih _ (cur ++ [w]) (by simp)

theorem chunksLoop_join (L : Nat) (ws : List (List Char)) :
    ∀ cur : List (List Char), cur ≠ [] →
      joinWithChar ' ' (chunksLoop L ws [] cur) =
        joinWithChar ' ' (cur ++ ws) := by
  induction ws with
  | nil =>
    intro cur hcur
    rw [chunksLoop, if_pos (by simpa [List.length_pos] using hcur)]
    simp [joinWithChar]
  | cons w ws ih =>
    intro cur hcur
    rw [chunksLoop]
    by_cases h : (joinWithChar ' ' cur).length + w.length > L
    · rw [if_pos h, chunksLoop_mono, List.nil_append,
        joinWithChar_append ' ' [joinWithChar ' ' cur]
          (chunksLoop L ws [] [w]) (by simp) (chunksLoop_ne_nil L ws [] [w] (by simp)),
        ih [w] (by simp),
        joinWithChar_append ' ' cur (w :: ws) hcur (by simp)]
      rfl
    · rw [if_neg h, ih (cur ++ [w]) (by simp), List.append_assoc]
      rfl

theorem chunksLoop_bound (L : Nat) (ws : List (List Char)) :
    ∀ (chunks cur : List (List Char)),
      (∀ w ∈ ws, ' ' ∉ w) →
      (∀ ch ∈ chunks, ch.length ≤ L + 1 ∨ ' ' ∉ ch) →
      ((joinWithChar ' ' cur).length ≤ L + 1 ∨ ' ' ∉ joinWithChar ' ' cur) →
      ∀ ch ∈ chunksLoop L ws chunks cur, ch.length ≤ L + 1 ∨ ' ' ∉ ch := by
  induction ws with
  | nil =>
    intro chunks cur _hws hchunks hcur ch hch
    rw [chunksLoop] at hch
    by_cases h : cur.length > 0
    · rw [if_pos h] at hch
      rcases List.mem_append.mp hch with h1 | h1
      · exact hchunks ch h1
      · rw [List.mem_singleton.mp h1]; exact hcur
    · rw [if_neg h] at hch
      exact hchunks ch hch
  | cons w ws ih =>
    intro chunks cur hws hchunks hcur ch hch
    rw [chunksLoop] at hch
    have hwsp : ' ' ∉ w := hws w (List.mem_cons_self w ws)
    have hws' : ∀ x ∈ ws, ' ' ∉ x := fun x hx => hws x (List.mem_cons_of_mem w hx)
    by_cases h : (joinWithChar ' ' cur).length + w.length > L
    · rw [if_pos h] at hch
      refine ih _ _ hws' ?_ ?_ ch hch
      · intro x hx
        rcases List.mem_append.mp hx with h1 | h1
        · exact hchunks x h1
        · rw [List.mem_singleton.mp h1]; exact hcur
      · right
        show ' ' ∉ joinWithChar ' ' [w]
        exact hwsp
    · rw [if_neg h] at hch
      refine ih _ _ hws' hchunks ?_ ch hch
      left
      cases cur with
      | nil =>
        show (joinWithChar ' ' [w]).length ≤ L + 1
        simp only [joinWithChar] at h ⊢
        omega
      | cons c0 cur' =>
        rw [joinWithChar_append ' ' (c0 :: cur') [w] (by simp) (by simp)]
        simp only [joinWithChar, List.length_append, List.length_cons] at h ⊢
        omega

/-- C3 counterexample.  First conjunct: at text `"ab c"` and limit 3 the
single produced chunk is `"ab c"` of length 4 — over the limit yet not a
single word longer than the limit (the packing test ignores the joining
space, so a multi-word chunk can reach length L+1).  Second conjunct: at
text `"xxxx"` and limit 3 the first word already exceeds the limit, an
empty chunk is flushed ahead of it, and the space-join of the chunks gains
a leading space — the round trip fails. -/
theorem splitIntoChunks_counterexample :
    (¬ ∀ ch ∈ splitIntoChunks "ab c" 3,
        ch.length ≤ 3 ∨ (' ' ∉ ch.data ∧ 3 < ch.length)) ∧
    ¬ joinWords (splitIntoChunks "xxxx" 3) = "xxxx" := by
  decide

/-- C3 (amended): every produced chunk either contains no space — a single
word, possibly longer than the limit, or the empty chunk flushed when the
first word exceeds the limit — or has length ≤ L+1 (not L: the joining
space is not counted by the packing test); and the space-join of the
chunks reproduces the input whenever the input's first word is within the
limit. -/
theorem splitIntoChunks_spec (text : String) (L : Nat) :
    (∀ ch ∈ splitIntoChunks text L, ch.length ≤ L + 1 ∨ ' ' ∉ ch.data) ∧
    ((splitChar ' ' text.data).headI.length ≤ L →
      joinWords (splitIntoChunks text L) = text) := by
  constructor
  · intro ch hch
    rw [splitIntoChunks] at hch
    obtain ⟨l, hl, hmk⟩ := List.mem_map.mp hch
    have hb := chunksLoop_bound L (splitChar ' ' text.data) [] []
      (splitChar_mem_not_mem ' ' text.data) (by simp)
      (by simp [joinWithChar]) l hl
    rw [← hmk]
    exact hb
  · intro hfw
    rw [splitIntoChunks, joinWords, List.map_map]
    have hid : ∀ ls : List (List Char),
        ls.map (String.data ∘ fun l => String.mk l) = ls := by
      intro ls
      induction ls with
      | nil => rfl
      | cons x xs ih => simp only [List.map_cons, ih]; rfl
    rw [hid]
    cases hw : splitChar ' ' text.data with
    | nil => exact absurd hw (splitChar_ne_nil ' ' text.data)
    | cons w0 rest =>
      rw [hw] at hfw
      simp only [List.headI] at hfw
      have hstep : chunksLoop L (w0 :: rest) [] [] =
          chunksLoop L rest [] [w0] := by
        rw [chunksLoop,
          if_neg (by simp only [joinWithChar, List.length_nil]; omega)]
        rfl
      rw [hstep, chunksLoop_join L rest [w0] (by simp),
        List.singleton_append, ← hw, joinWithChar_splitChar]

/-- Witness for `splitIntoChunks_spec` at text `"ab c"`, limit 10. -/
theorem splitIntoChunks_spec_witness :
    (("ab c" : String).length ≤ 10 + 1 ∨ ' ' ∉ ("ab c" : String).data) ∧
    joinWords (splitIntoChunks "ab c" 10) = "ab c" :=
  ⟨(splitIntoChunks_spec "ab c" 10).1 "ab c" (by decide),
   (splitIntoChunks_spec "ab c" 10).2 (by decide)⟩

/-! ### `BackgroundService.exportAsMarkdown` / `exportAsText`

The impure `new Date(summary.timestamp).toLocaleString()` is passed in as
`dateStr`.  JavaScript `String.prototype.trim` is modelled by `trimChars`
over the whitespace characters that can occur here. -/

def isJsWs (c : Char) : Bool :=
  c == ' ' || c == '\n' || c == '\t' || c == '\r'

def trimRight (l : List Char) : List Char :=
  (l.reverse.dropWhile isJsWs).reverse

def trimChars (l : List Char) : List Char :=
  trimRight (l.dropWhile isJsWs)

/-- `Array.prototype.join(sep)` at the `String` level. -/
def joinWith (sep : String) : List String → String
  | [] => ""
  | [x] => x
  | x :: xs => x ++ sep ++ joinWith sep xs

/-- `BackgroundService.exportAsMarkdown` (template literal plus `.trim()`). -/
def exportAsMarkdown (summary : Summary) (dateStr : String) : String :=
  String.mk (trimChars
    ("\n# Video Summary\n\n## Metadata\n- **Video ID**: " ++ summary.videoId ++
      "\n- **Generated**: " ++ dateStr ++
      "\n\n## Key Points\n" ++
      joinWith "\n" (summary.keyPoints.map (fun point => "* " ++ point)) ++
      "\n\n## Topics\n" ++
      joinWith " " (summary.topics.map (fun topic => "`" ++ topic ++ "`")) ++
      "\n\n## Full Summary\n" ++ summary.content ++ "\n    ").data)

/-- `BackgroundService.exportAsText` (template literal plus `.trim()`). -/
def exportAsText (summary : Summary) (dateStr : String) : String :=
  String.mk (trimChars
    ("\nVideo Summary\nTitle: " ++ summary.videoId ++
      "\nGenerated: " ++ dateStr ++
      "\n\nKey Points:\n" ++
      joinWith "\n" (summary.keyPoints.map (fun point => "• " ++ point)) ++
      "\n\nTopics: " ++ joinWith ", " summary.topics ++
      "\n\nFull Summary:\n" ++ summary.content ++ "\n    ").data)

/-- `BackgroundService.handleExportSummary`: format dispatch. -/
def handleExportSummary (summary : Summary) (format dateStr : String) :
    String :=
  if format = "markdown" then exportAsMarkdown summary dateStr
  else exportAsText summary dateStr

/-- The lines of an export, split at newline characters. -/
def mdLines (s : String) : List (List Char) :=
  splitChar '\n' s.data

/-- The lines strictly between the first line equal to `header` and the
next heading line (a line starting with two number signs). -/
def sectionAfter (header : List Char) : List (List Char) → List (List Char)
  | [] => []
  | l :: ls =>
    if l = header then ls.takeWhile (fun x => !(['#', '#'].isPrefixOf x))
    else sectionAfter header ls

/-- See `sectionAfter`. -/
def mdSection (s : String) (header : String) : List (List Char) :=
  sectionAfter header.data (mdLines s)

/-- Number of bulleted lines. -/
def bulletCount (lines : List (List Char)) : Nat :=
  (lines.filter (fun l => ['*', ' '].isPrefixOf l)).length

/-- Total number of backtick characters (an inline-code token contributes
two). -/
def backtickCount (lines : List (List Char)) : Nat :=
  (lines.map (fun l => l.count '`')).sum

theorem dropWhile_head_false (p : Char → Bool) (l : List Char) (a : Char)
    (hh : l.head? = some a) (ha : p a = false) : l.dropWhile p = l := by
  cases l with
  | nil => rfl
  | cons x xs =>
    have hx : x = a := by simpa using hh
    rw [List.dropWhile_cons, hx, ha]
    simp

theorem trimRight_split (M pre tail : List Char) (y : Char)
    (hy : isJsWs y = false) (hM : M = pre ++ [y]) :
    ∃ Z, trimRight (M ++ tail) = M ++ Z ∧ Z <+: tail := by
  subst hM
  unfold trimRight
  rw [List.reverse_append, List.reverse_append]
  simp only [List.reverse_cons, List.reverse_nil, List.nil_append,
    List.singleton_append]
  rw [List.dropWhile_append]
  by_cases hempty : (tail.reverse.dropWhile isJsWs).isEmpty = true
  · rw [if_pos hempty, List.dropWhile_cons, hy]
    refine ⟨[], ?_, List.nil_prefix⟩
    simp
  · rw [if_neg hempty]
    refine ⟨(tail.reverse.dropWhile isJsWs).reverse, ?_, ?_⟩
    · rw [List.reverse_append]
      simp
    · have h1 : tail.reverse.dropWhile isJsWs <:+ tail.reverse :=
        List.dropWhile_suffix isJsWs
      have h2 := List.reverse_prefix.mpr h1
      rwa [List.reverse_reverse] at h2

theorem sectionAfter_segs (v dd p1 p2 t1 t2 : List Char)
    (extra : List (List Char)) :
    sectionAfter "## Key Points".data
        (("# Video Summary".data :: [] :: "## Metadata".data ::
          ("- **Video ID**: ".data ++ v) :: ("- **Generated**: ".data ++ dd) ::
          [] :: "## Key Points".data ::
          ('*' :: ' ' :: p1) :: ('*' :: ' ' :: p2) :: [] ::
          "## Topics".data ::
          ('`' :: (t1 ++ '`' :: ' ' :: '`' :: (t2 ++ ['`']))) :: [] ::
          "## Full Summary".data :: []) ++ extra) =
      ['*' :: ' ' :: p1, '*' :: ' ' :: p2, []] ∧
    sectionAfter "## Topics".data
        (("# Video Summary".data :: [] :: "## Metadata".data ::
          ("- **Video ID**: ".data ++ v) :: ("- **Generated**: ".data ++ dd) ::
          [] :: "## Key Points".data ::
          ('*' :: ' ' :: p1) :: ('*' :: ' ' :: p2) :: [] ::
          "## Topics".data ::
          ('`' :: (t1 ++ '`' :: ' ' :: '`' :: (t2 ++ ['`']))) :: [] ::
          "## Full Summary".data :: []) ++ extra) =
      [('`' :: (t1 ++ '`' :: ' ' :: '`' :: (t2 ++ ['`']))), []] := by
  have hw8 : ['#', '#'].isPrefixOf ('*' :: ' ' :: p1) = false := rfl
  have hw9 : ['#', '#'].isPrefixOf ('*' :: ' ' :: p2) = false := rfl
  have hw10 : ['#', '#'].isPrefixOf ([] : List Char) = false := rfl
  have hw11 : ['#', '#'].isPrefixOf "## Topics".data = true := rfl
  have hw12 : ['#', '#'].isPrefixOf
      ('`' :: (t1 ++ '`' :: ' ' :: '`' :: (t2 ++ ['`']))) = false := rfl
  have hw14 : ['#', '#'].isPrefixOf "## Full Summary".data = true := rfl
  constructor <;>
    simp [sectionAfter, hw8, hw9, hw10, hw11, hw12, hw14]

/-- The line structure of the markdown export, parameterised by the
newline-free fragments. -/
def mdSegs (v dd p1 p2 t1 t2 : List Char) : List (List Char) :=
  ["# Video Summary".data, [], "## Metadata".data,
   "- **Video ID**: ".data ++ v, "- **Generated**: ".data ++ dd, [],
   "## Key Points".data, '*' :: ' ' :: p1, '*' :: ' ' :: p2, [],
   "## Topics".data, '`' :: (t1 ++ '`' :: ' ' :: '`' :: (t2 ++ ['`'])), [],
   "## Full Summary".data]

/-- A summary with exactly 2 keyPoints and 2 topics whose first keyPoint
contains an embedded newline followed by a bullet marker. -/
def exSumBad : Summary :=
  ⟨"i1", "vid9", "body", ["a\n* b", "c"], ["t", "u"], 0, "en"⟩

/-- C9 counterexample: `exSumBad` has exactly 2 keyPoints and 2 topics, yet
its markdown export's Key Points section contains 3 bulleted lines, because
a keyPoint may itself contain a newline followed by a bullet marker. -/
theorem exportSummary_markdown_counterexample :
    exSumBad.keyPoints.length = 2 ∧ exSumBad.topics.length = 2 ∧
    ¬ (bulletCount (mdSection (handleExportSummary exSumBad "markdown"
        "1/1/2024") "## Key Points") = 2) := by
  decide

set_option maxHeartbeats 4000000 in
/-- C9 (amended): for a Summary with exactly 2 keyPoints and 2 topics whose
videoId, rendered date and keyPoints contain no newline and whose topics
contain no newline and no backtick, `exportSummary(..., 'markdown')`
produces a Key Points section of exactly the 2 bulleted keyPoint lines
(bulleted-line count 2) and a Topics section of exactly one line holding
the 2 inline-code-wrapped topics (4 backtick characters in total). -/
theorem exportSummary_markdown_sections (s : Summary) (d p1 p2 t1 t2 : String)
    (hkp : s.keyPoints = [p1, p2]) (htp : s.topics = [t1, t2])
    (hv : '\n' ∉ s.videoId.data) (hd : '\n' ∉ d.data)
    (hp1 : '\n' ∉ p1.data) (hp2 : '\n' ∉ p2.data)
    (ht1 : '\n' ∉ t1.data) (ht2 : '\n' ∉ t2.data)
    (hb1 : '`' ∉ t1.data) (hb2 : '`' ∉ t2.data) :
    mdSection (handleExportSummary s "markdown" d) "## Key Points" =
      ['*' :: ' ' :: p1.data, '*' :: ' ' :: p2.data, []] ∧
    bulletCount
      (mdSection (handleExportSummary s "markdown" d) "## Key Points") = 2 ∧
    mdSection (handleExportSummary s "markdown" d) "## Topics" =
      ['`' :: (t1.data ++ '`' :: ' ' :: '`' :: (t2.data ++ ['`'])), []] ∧
    backtickCount
      (mdSection (handleExportSummary s "markdown" d) "## Topics") = 4 := by
  have hfmt : handleExportSummary s "markdown" d = exportAsMarkdown s d :=
    if_pos rfl
  have hflat : (exportAsMarkdown s d).data =
      trimChars ('\n' :: (joinWithChar '\n'
        (mdSegs s.videoId.data d.data p1.data p2.data t1.data t2.data) ++
        '\n' :: (s.content.data ++ '\n' :: [' ', ' ', ' ', ' ']))) := by
    show trimChars _ = trimChars _
    congr 1
    rw [hkp, htp]
    simp only [mdSegs, List.map_cons, List.map_nil, joinWith, joinWithChar]
    simp only [strDataAppend, List.append_assoc, List.cons_append,
      List.nil_append]
  have hMpre : joinWithChar '\n'
      (mdSegs s.videoId.data d.data p1.data p2.data t1.data t2.data) =
      (joinWithChar '\n' ["# Video Summary".data, [], "## Metadata".data,
        "- **Video ID**: ".data ++ s.videoId.data,
        "- **Generated**: ".data ++ d.data, [], "## Key Points".data,
        '*' :: ' ' :: p1.data, '*' :: ' ' :: p2.data, [], "## Topics".data,
        '`' :: (t1.data ++ '`' :: ' ' :: '`' :: (t2.data ++ ['`'])), []] ++
        '\n' :: "## Full Summar".data) ++ ['y'] := by
    simp only [mdSegs, joinWithChar]
    simp only [List.append_assoc, List.cons_append, List.nil_append]
  obtain ⟨Z, hZ, hpreZ⟩ := trimRight_split
    (joinWithChar '\n'
      (mdSegs s.videoId.data d.data p1.data p2.data t1.data t2.data))
    _ ('\n' :: (s.content.data ++ '\n' :: [' ', ' ', ' ', ' '])) 'y'
    (by decide) hMpre
  have hhead : (joinWithChar '\n'
      (mdSegs s.videoId.data d.data p1.data p2.data t1.data t2.data) ++
      '\n' :: (s.content.data ++ '\n' :: [' ', ' ', ' ', ' '])).head? =
      some '#' := rfl
  have hdata : (exportAsMarkdown s d).data =
      joinWithChar '\n'
        (mdSegs s.videoId.data d.data p1.data p2.data t1.data t2.data) ++ Z := by
    rw [hflat]
    show trimRight _ = _
    rw [List.dropWhile_cons, if_pos (by decide : isJsWs '\n' = true),
      dropWhile_head_false isJsWs _ '#' hhead (by decide), hZ]
  have hnl : ∀ x ∈ mdSegs s.videoId.data d.data p1.data p2.data t1.data
      t2.data, '\n' ∉ x := by
    intro x hx
    simp only [mdSegs, List.mem_cons, List.not_mem_nil, or_false] at hx
    rcases hx with rfl|rfl|rfl|rfl|rfl|rfl|rfl|rfl|rfl|rfl|rfl|rfl|rfl|rfl
    · decide
    · decide
    · decide
    · intro h
      rcases List.mem_append.mp h with h | h
      · revert h; decide
      · exact hv h
    · intro h
      rcases List.mem_append.mp h with h | h
      · revert h; decide
      · exact hd h
    · decide
    · decide
    · intro h
      rcases List.mem_cons.mp h with h | h
      · exact absurd h (by decide)
      rcases List.mem_cons.mp h with h | h
      · exact absurd h (by decide)
      exact hp1 h
    · intro h
      rcases List.mem_cons.mp h with h | h
      · exact absurd h (by decide)
      rcases List.mem_cons.mp h with h | h
      · exact absurd h (by decide)
      exact hp2 h
    · decide
    · decide
    · intro h
      rcases List.mem_cons.mp h with h | h
      · exact absurd h (by decide)
      rcases List.mem_append.mp h with h | h
      · exact ht1 h
      rcases List.mem_cons.mp h with h | h
      · exact absurd h (by decide)
      rcases List.mem_cons.mp h with h | h
      · exact absurd h (by decide)
      rcases List.mem_cons.mp h with h | h
      · exact absurd h (by decide)
      rcases List.mem_append.mp h with h | h
      · exact ht2 h
      · revert h; decide
    · decide
    · decide
  have hZcase : Z = [] ∨ ∃ Z2, Z = '\n' :: Z2 := by
    cases Z with
    | nil => exact Or.inl rfl
    | cons z zs =>
      obtain ⟨hz, _⟩ := List.cons_prefix_cons.mp hpreZ
      exact Or.inr ⟨zs, by rw [hz]⟩
  have hlines : ∃ extra, mdLines (exportAsMarkdown s d) =
      mdSegs s.videoId.data d.data p1.data p2.data t1.data t2.data ++
        extra := by
    rcases hZcase with hZe | ⟨Z2, hZe⟩
    · refine ⟨[], ?_⟩
      rw [mdLines, hdata, hZe, List.append_nil, List.append_nil]
      exact splitChar_joinWithChar '\n' _ hnl (by simp [mdSegs])
    · refine ⟨splitChar '\n' Z2, ?_⟩
      rw [mdLines, hdata, hZe, splitChar_append_cons,
        splitChar_joinWithChar '\n' _ hnl (by simp [mdSegs])]
  obtain ⟨extra, hextra⟩ := hlines
  have hsec := sectionAfter_segs s.videoId.data d.data p1.data p2.data
    t1.data t2.data extra
  have hkpsec : mdSection (handleExportSummary s "markdown" d)
      "## Key Points" = ['*' :: ' ' :: p1.data, '*' :: ' ' :: p2.data, []] := by
    rw [hfmt, mdSection, hextra]
    exact hsec.1
  have htpsec : mdSection (handleExportSummary s "markdown" d) "## Topics" =
      ['`' :: (t1.data ++ '`' :: ' ' :: '`' :: (t2.data ++ ['`'])), []] := by
    rw [hfmt, mdSection, hextra]
    exact hsec.2
  refine ⟨hkpsec, ?_, htpsec, ?_⟩
  · rw [hkpsec]
    have hpb1 : ['*', ' '].isPrefixOf ('*' :: ' ' :: p1.data) = true := by
      simp [List.isPrefixOf]
    have hpb2 : ['*', ' '].isPrefixOf ('*' :: ' ' :: p2.data) = true := by
      simp [List.isPrefixOf]
    simp [bulletCount, hpb1, hpb2]
  · rw [htpsec]
    simp [backtickCount, List.count_cons, List.count_append,
      List.count_eq_zero.mpr hb1, List.count_eq_zero.mpr hb2]

/-- A well-formed summary with 2 keyPoints and 2 topics. -/
def exSumGood : Summary :=
  ⟨"i1", "vid9", "full body", ["k1", "k2"], ["t1", "t2"], 0, "en"⟩

/-- Witness for `exportSummary_markdown_sections` at `exSumGood`. -/
theorem exportSummary_markdown_sections_witness :
    mdSection (handleExportSummary exSumGood "markdown" "1/1/2024")
      "## Key Points" =
      ['*' :: ' ' :: ("k1" : String).data,
       '*' :: ' ' :: ("k2" : String).data, []] ∧
    bulletCount (mdSection (handleExportSummary exSumGood "markdown"
      "1/1/2024") "## Key Points") = 2 ∧
    mdSection (handleExportSummary exSumGood "markdown" "1/1/2024")
      "## Topics" =
      ['`' :: (("t1" : String).data ++ '`' :: ' ' :: '`' ::
        (("t2" : String).data ++ ['`'])), []] ∧
    backtickCount (mdSection (handleExportSummary exSumGood "markdown"
      "1/1/2024") "## Topics") = 4 :=
  exportSummary_markdown_sections exSumGood "1/1/2024" "k1" "k2" "t1" "t2"
    rfl rfl (by decide) (by decide) (by decide) (by decide) (by decide)
    (by decide) (by decide) (by decide)
